import Mathlib

/-!
Shallow embedding of the aabel-multihash-rs crate: a pair-hasher combinator
that runs two keyed hash accumulators over one byte stream and expands the
two resulting 64-bit digests into an unbounded sequence of derived hash
values via the polynomial recurrence implemented by the iterator types
below.

Machine integers (u64) are modelled as Nat with explicit reduction modulo
2 to the power 64 wherever the source performs wraparound arithmetic. Byte
slices are modelled as lists of Nat. Methods taking a shared borrow of the
receiver leave the receiver unchanged (the structs have no interior
mutability); where a claim is about non-mutation, the method is modelled as
returning the unchanged state alongside its result.
-/

namespace Multihash

/-- The modulus of u64 arithmetic: 2 to the power 64. -/
def U64MOD : Nat := 2 ^ 64

/-- Rust u64 wrapping_add: addition reduced modulo 2 to the power 64. -/
def wrapping_add (x y : Nat) : Nat := (x + y) % U64MOD

/-- The Hash64 newtype from lib.rs: a thin wrapper around a u64 hash value. -/
structure Hash64 where
  val : Nat
deriving DecidableEq, Repr

/-- From u64 for Hash64 (lib.rs): wraps the integer. -/
def Hash64.from_u64 (v : Nat) : Hash64 := ⟨v⟩

/-- From Hash64 for u64 (lib.rs): unwraps to the underlying integer. -/
def Hash64.to_u64 (h : Hash64) : Nat := h.val

/-- State of PairHasherIterator (pair_hasher.rs): three u64 fields a, b, c. -/
structure PairHasherIterator where
  a : Nat
  b : Nat
  c : Nat
deriving DecidableEq, Repr

/-- PairHasherIterator::new (pair_hasher.rs lines 72-78): seeds a and b, c
starts at its default value, zero. -/
def PairHasherIterator.new (a b : Nat) : PairHasherIterator := ⟨a, b, 0⟩

/-- Iterator::next for PairHasherIterator (pair_hasher.rs lines 84-91) under
release (wrapping) semantics of the compound assignment on c: emit the
current a, then a becomes a wrapping_add b, b becomes b wrapping_add c, and
c becomes c plus (c wrapping_add 1), the outer addition also reduced modulo
2 to the power 64. -/
def PairHasherIterator.next (s : PairHasherIterator) : Option (Hash64 × PairHasherIterator) :=
  some (Hash64.from_u64 s.a,
    ⟨wrapping_add s.a s.b, wrapping_add s.b s.c, (s.c + wrapping_add s.c 1) % U64MOD⟩)

/-- Iterator::next for PairHasherIterator under debug (overflow-checked)
semantics: the compound assignment on c is a plain addition that panics
(modelled as none) when c + (c wrapping_add 1) overflows u64. -/
def PairHasherIterator.nextChecked (s : PairHasherIterator) : Option (Hash64 × PairHasherIterator) :=
  if s.c + wrapping_add s.c 1 < U64MOD then
    some (Hash64.from_u64 s.a,
      ⟨wrapping_add s.a s.b, wrapping_add s.b s.c, s.c + wrapping_add s.c 1⟩)
  else none

/-- Drawing n elements from the iterator via a bounded take, collecting the
emitted values into a list; an exhausted iterator (next returning none)
stops the collection early. -/
def PairHasherIterator.takeList : Nat → PairHasherIterator → List Hash64
  | 0, _ => []
  | n + 1, s =>
    match s.next with
    | some (v, s') => v :: takeList n s'
    | none => []

/-- State of MultiHashIterator (hash_iter.rs): three u64 fields a, b, c. -/
structure MultiHashIterator where
  a : Nat
  b : Nat
  c : Nat
deriving DecidableEq, Repr

/-- MultiHashIterator::new (hash_iter.rs lines 8-14): seeds a and b, c
starts at its default value, zero. -/
def MultiHashIterator.new (a b : Nat) : MultiHashIterator := ⟨a, b, 0⟩

/-- Iterator::next for MultiHashIterator (hash_iter.rs lines 20-26),
wrapping semantics; the state update is identical to
PairHasherIterator.next but the emitted item is the raw u64 rather than a
Hash64 wrapper. -/
def MultiHashIterator.next (s : MultiHashIterator) : Option (Nat × MultiHashIterator) :=
  some (s.a,
    ⟨wrapping_add s.a s.b, wrapping_add s.b s.c, (s.c + wrapping_add s.c 1) % U64MOD⟩)

/-- Drawing n raw u64 values from MultiHashIterator via a bounded take. -/
def MultiHashIterator.takeList : Nat → MultiHashIterator → List Nat
  | 0, _ => []
  | n + 1, s =>
    match s.next with
    | some (v, s') => v :: takeList n s'
    | none => []

/-- The generator production rule as the specification words it, for
comparison with the code: emit the current a, then a becomes a + b, b
becomes b + c, and c becomes 2c + 1, all modulo 2 to the power 64. -/
def specRecurrenceStep (s : PairHasherIterator) : Hash64 × PairHasherIterator :=
  (Hash64.from_u64 s.a,
    ⟨(s.a + s.b) % U64MOD, (s.b + s.c) % U64MOD, (2 * s.c + 1) % U64MOD⟩)

/-- The first n values of the specification recurrence. -/
def specRecurrenceList : Nat → PairHasherIterator → List Hash64
  | 0, _ => []
  | n + 1, s => (specRecurrenceStep s).1 :: specRecurrenceList n (specRecurrenceStep s).2

/-- An abstract single-stream hash accumulator implementation (the external
Hasher trait, instantiated in the crate by the external SipHasher): a state
type with a byte-stream write operation and a finish operation producing a
u64 digest. -/
structure HasherImpl (σ : Type) where
  write : σ → List Nat → σ
  finish : σ → Nat

/-- PairHasher (pair_hasher.rs lines 24-27): owns two inner hasher states. -/
structure PairHasher (σ1 σ2 : Type) where
  hasher1 : σ1
  hasher2 : σ2
deriving DecidableEq, Repr

/-- PairHasher::new (pair_hasher.rs lines 30-32). -/
def PairHasher.new {σ1 σ2 : Type} (hasher1 : σ1) (hasher2 : σ2) : PairHasher σ1 σ2 :=
  ⟨hasher1, hasher2⟩

/-- Hasher::finish for PairHasher (pair_hasher.rs lines 40-44): reads the
two inner digests and returns their wrapping sum. The receiver is a shared
borrow and the struct has no interior mutability, so the unchanged state is
returned alongside the result, modelling the non-destructive read. -/
def PairHasher.finish {σ1 σ2 : Type} (i1 : HasherImpl σ1) (i2 : HasherImpl σ2)
    (p : PairHasher σ1 σ2) : Nat × PairHasher σ1 σ2 :=
  (wrapping_add (i1.finish p.hasher1) (i2.finish p.hasher2), p)

/-- Hasher::write for PairHasher (pair_hasher.rs lines 46-49): forwards the
byte slice unchanged to both inner hashers, hasher1 first. -/
def PairHasher.write {σ1 σ2 : Type} (i1 : HasherImpl σ1) (i2 : HasherImpl σ2)
    (p : PairHasher σ1 σ2) (bytes : List Nat) : PairHasher σ1 σ2 :=
  ⟨i1.write p.hasher1 bytes, i2.write p.hasher2 bytes⟩

/-- HasherExt::finish_iter for PairHasher (pair_hasher.rs lines 57-62):
consumes the hasher, reads each inner digest once, and seeds the iterator
with them via PairHasherIterator.new. -/
def PairHasher.finish_iter {σ1 σ2 : Type} (i1 : HasherImpl σ1) (i2 : HasherImpl σ2)
    (p : PairHasher σ1 σ2) : PairHasherIterator :=
  PairHasherIterator.new (i1.finish p.hasher1) (i2.finish p.hasher2)

/-- Feeding one hashable item into a PairHasher: the external Hash protocol
performs a sequence of write calls on the hasher, here given as a list of
byte chunks. -/
def PairHasher.writeAll {σ1 σ2 : Type} (i1 : HasherImpl σ1) (i2 : HasherImpl σ2)
    (p : PairHasher σ1 σ2) (chunks : List (List Nat)) : PairHasher σ1 σ2 :=
  chunks.foldl (PairHasher.write i1 i2) p

/-- BuildSipHasher (build_siphasher.rs lines 9-12): owns the two u64 keys
that seed a SipHasher. -/
structure BuildSipHasher where
  key0 : Nat
  key1 : Nat
deriving DecidableEq, Repr

/-- From SipHasherKeys for BuildSipHasher (build_siphasher.rs lines 14-21):
stores the pair componentwise. -/
def BuildSipHasher.from_keys (keys : Nat × Nat) : BuildSipHasher :=
  ⟨keys.1, keys.2⟩

/-- BuildHasher::build_hasher for BuildSipHasher (build_siphasher.rs lines
35-37): constructs a fresh SipHasher from the two keys. SipHasher lives in
an external crate and is abstracted as a constructor function sipNew. -/
def BuildSipHasher.build_hasher {σ : Type} (sipNew : Nat → Nat → σ)
    (b : BuildSipHasher) : σ :=
  sipNew b.key0 b.key1

/-- BuildPairHasher (build_pair_hasher.rs lines 31-34): owns the two inner
builders. -/
structure BuildPairHasher (β1 β2 : Type) where
  builder1 : β1
  builder2 : β2
deriving DecidableEq, Repr

/-- BuildPairHasher::new (build_pair_hasher.rs lines 37-39). -/
def BuildPairHasher.new {β1 β2 : Type} (builder1 : β1) (builder2 : β2) :
    BuildPairHasher β1 β2 :=
  ⟨builder1, builder2⟩

/-- BuildPairHasher::new_with_keys (build_pair_hasher.rs lines 43-47):
builds one BuildSipHasher from each key pair. -/
def BuildPairHasher.new_with_keys (keys1 keys2 : Nat × Nat) :
    BuildPairHasher BuildSipHasher BuildSipHasher :=
  BuildPairHasher.new (BuildSipHasher.from_keys keys1) (BuildSipHasher.from_keys keys2)

/-- BuildHasher::build_hasher for BuildPairHasher (build_pair_hasher.rs
lines 63-67): builds a fresh hasher from each inner builder (whose own
build_hasher functions are passed as bh1 and bh2) and pairs them. The
receiver is a shared borrow, so building mutates nothing: the factory is a
pure input. -/
def BuildPairHasher.build_hasher {β1 β2 σ1 σ2 : Type} (bh1 : β1 → σ1) (bh2 : β2 → σ2)
    (b : BuildPairHasher β1 β2) : PairHasher σ1 σ2 :=
  PairHasher.new (bh1 b.builder1) (bh2 b.builder2)

/-- BuildHasherExt::hashes_one (lib.rs lines 96-104): builds a fresh hasher
from the factory, hashes the item into it via the external Hash protocol
(modelled by encode, which yields the sequence of byte chunks the item
writes), and returns finish_iter of the resulting hasher. -/
def hashes_one {β1 β2 σ1 σ2 α : Type} (bh1 : β1 → σ1) (bh2 : β2 → σ2)
    (i1 : HasherImpl σ1) (i2 : HasherImpl σ2) (encode : α → List (List Nat))
    (b : BuildPairHasher β1 β2) (item : α) : PairHasherIterator :=
  PairHasher.finish_iter i1 i2
    (PairHasher.writeAll i1 i2 (BuildPairHasher.build_hasher bh1 bh2 b) (encode item))

/-- A concrete byte-stream hasher instance used to witness hypotheses about
inner accumulators: the state records the whole stream written so far, and
the digest is its sum reduced modulo 2 to the power 64. -/
def listHasher : HasherImpl (List Nat) :=
  ⟨fun s bs => s ++ bs, fun s => s.sum % U64MOD⟩

/-- The wrapping update of c in the code equals the specification formula
2c + 1 modulo 2 to the power 64, for every natural c. -/
theorem c_update_eq (c : Nat) : (c + wrapping_add c 1) % U64MOD = (2 * c + 1) % U64MOD := by
  simp only [wrapping_add, U64MOD]
  omega

/-- One code step (wrapping semantics) is exactly one specification step. -/
theorem next_eq_specStep (s : PairHasherIterator) :
    s.next = some (specRecurrenceStep s) := by
  have h := c_update_eq s.c
  simp only [wrapping_add] at h
  simp only [PairHasherIterator.next, specRecurrenceStep, wrapping_add, Hash64.from_u64, h]

/-- The bounded take of the code iterator agrees with the specification
recurrence at every length. -/
theorem takeList_eq_specList (n : Nat) (s : PairHasherIterator) :
    PairHasherIterator.takeList n s = specRecurrenceList n s := by
  induction n generalizing s with
  | zero => rfl
  | succ n ih =>
    simp only [PairHasherIterator.takeList, next_eq_specStep, specRecurrenceList, ih]

/-- When c + (c wrapping_add 1) does not overflow u64, the overflow-checked
step agrees with the wrapping step. The side condition holds exactly when c
is below 2 to the power 63 or c is the maximal u64. -/
theorem nextChecked_eq_next_safe (s : PairHasherIterator)
    (h : s.c < 2 ^ 63 ∨ s.c = 2 ^ 64 - 1) : s.nextChecked = s.next := by
  simp only [PairHasherIterator.nextChecked, PairHasherIterator.next, wrapping_add, U64MOD]
  rw [if_pos (by omega)]
  simp only [Option.some.injEq, Prod.mk.injEq, PairHasherIterator.mk.injEq]
  exact ⟨trivial, trivial, trivial, by omega⟩

/-- The bounded take always yields exactly as many elements as requested. -/
theorem takeList_length (n : Nat) (s : PairHasherIterator) :
    (PairHasherIterator.takeList n s).length = n := by
  induction n generalizing s with
  | zero => rfl
  | succ n ih =>
    simp only [PairHasherIterator.takeList, PairHasherIterator.next, List.length_cons, ih]

/-- The two iterator implementations evolve identically: mapping the Hash64
values of PairHasherIterator to their underlying integers gives exactly the
raw values of MultiHashIterator started on the same state. -/
theorem takeList_map_eq_multi (n : Nat) (a b c : Nat) :
    (PairHasherIterator.takeList n ⟨a, b, c⟩).map Hash64.to_u64 =
      MultiHashIterator.takeList n ⟨a, b, c⟩ := by
  induction n generalizing a b c with
  | zero => rfl
  | succ n ih =>
    simp only [PairHasherIterator.takeList, PairHasherIterator.next,
      MultiHashIterator.takeList, MultiHashIterator.next, List.map_cons,
      Hash64.to_u64, Hash64.from_u64, ih]

/-- Claim C1: for every pair of seeds a0 and b0, the generator initialized
with a = a0, b = b0, c = 0 emits per requested element the current a and
then updates a to a + b, b to b + c and c to 2c + 1, all modulo 2 to the
power 64 — its outputs coincide with the specification recurrence at every
length; in particular for seeds 5 and 3 the first four emitted values are
5, 8, 11 and 15. -/
theorem C1_recurrence (a0 b0 n : Nat) :
    PairHasherIterator.takeList n (PairHasherIterator.new a0 b0) =
      specRecurrenceList n (PairHasherIterator.new a0 b0) ∧
    PairHasherIterator.takeList 4 (PairHasherIterator.new 5 3) =
      [Hash64.from_u64 5, Hash64.from_u64 8, Hash64.from_u64 11, Hash64.from_u64 15] :=
  ⟨takeList_eq_specList n _, by decide⟩

/-- Claim C2, counterexample: the claim quantifies over every possible
64-bit state, but at c equal to 2 to the power 63 the compound assignment
updating c overflows u64, so under overflow-checked (debug-profile)
semantics the step traps instead of wrapping: the update of c is not
performed with wraparound arithmetic on that state. -/
theorem C2_counterexample :
    PairHasherIterator.nextChecked ⟨0, 0, 2 ^ 63⟩ = none := by
  decide

/-- Claim C2, amended: the updates of a and b, and under wrapping (release)
semantics also the update of c, are total and reduce modulo 2 to the power
64 for every possible state; the compound assignment updating c, however,
is an unchecked addition, so under overflow-checked (debug) semantics it
can trap — though never on a state reachable from initialization, where c
always has the form 2 to the power k minus 1 with k at most 64: on such
states the checked step succeeds, agrees with the wrapping step, and
preserves that form. -/
theorem C2_total_amended (a b c : Nat) :
    PairHasherIterator.next ⟨a, b, c⟩ =
      some (Hash64.from_u64 a,
        ⟨(a + b) % U64MOD, (b + c) % U64MOD, (2 * c + 1) % U64MOD⟩) ∧
    ((∃ k, k ≤ 64 ∧ c = 2 ^ k - 1) →
      PairHasherIterator.nextChecked ⟨a, b, c⟩ = PairHasherIterator.next ⟨a, b, c⟩ ∧
      ∃ k, k ≤ 64 ∧ (2 * c + 1) % U64MOD = 2 ^ k - 1) := by
  constructor
  · exact next_eq_specStep ⟨a, b, c⟩
  · rintro ⟨k, hk, hc⟩
    by_cases htop : k = 64
    · subst htop
      subst hc
      refine ⟨nextChecked_eq_next_safe _ (Or.inr rfl), 64, le_refl 64, ?_⟩
      decide
    · have hk63 : k ≤ 63 := by omega
      have hle : 2 ^ k ≤ 2 ^ 63 := Nat.pow_le_pow_right (by norm_num) hk63
      have hone : 1 ≤ 2 ^ k := Nat.one_le_pow k 2 (by norm_num)
      have hsucc : 2 ^ (k + 1) = 2 * 2 ^ k := by
        rw [pow_succ]
        ring
      subst hc
      refine ⟨nextChecked_eq_next_safe _ (Or.inl ?_), k + 1, by omega, ?_⟩
      · show 2 ^ k - 1 < 2 ^ 63
        omega
      · simp only [U64MOD]
        omega

/-- Claim C2, witness: the amended theorem applied at the initial state
with seeds 5 and 3 and c zero, whose c has the required form with k zero. -/
theorem C2_total_amended_witness :
    PairHasherIterator.nextChecked ⟨5, 3, 0⟩ = PairHasherIterator.next ⟨5, 3, 0⟩ ∧
    ∃ k, k ≤ 64 ∧ (2 * 0 + 1) % U64MOD = 2 ^ k - 1 :=
  (C2_total_amended 5 3 0).2 ⟨0, by omega, by decide⟩

/-- Claim C3: finish returns the wraparound sum of the two inner digests
and reads the inner accumulators non-destructively, leaving the state of
the pair accumulator unchanged. -/
theorem C3_finish {σ1 σ2 : Type} (i1 : HasherImpl σ1) (i2 : HasherImpl σ2)
    (p : PairHasher σ1 σ2) :
    (PairHasher.finish i1 i2 p).1 = (i1.finish p.hasher1 + i2.finish p.hasher2) % U64MOD ∧
    (PairHasher.finish i1 i2 p).2 = p :=
  ⟨rfl, rfl⟩

/-- Claim C4: finish_iter consumes the pair accumulator, reads the two
inner digests, and constructs the sequence generator seeded with the first
inner digest as a, the second inner digest as b, and c initialized to
zero. -/
theorem C4_finish_iter {σ1 σ2 : Type} (i1 : HasherImpl σ1) (i2 : HasherImpl σ2)
    (p : PairHasher σ1 σ2) :
    PairHasher.finish_iter i1 i2 p =
      ⟨i1.finish p.hasher1, i2.finish p.hasher2, 0⟩ :=
  rfl

/-- Claim C5: determinism — for fixed key pairs and a fixed input item, two
invocations of hashes_one on two factories built independently from those
keys produce identical digest sequences for any prefix length: the whole
pipeline is a pure function of the keys, the abstract hasher implementation
and the encoded item, with no other entropy source. -/
theorem C5_determinism {σ α : Type} (sipNew : Nat → Nat → σ) (i : HasherImpl σ)
    (encode : α → List (List Nat)) (keys1 keys2 : Nat × Nat) (item : α) (n : Nat) :
    PairHasherIterator.takeList n
        (hashes_one (BuildSipHasher.build_hasher sipNew) (BuildSipHasher.build_hasher sipNew)
          i i encode (BuildPairHasher.new_with_keys keys1 keys2) item) =
      PairHasherIterator.takeList n
        (hashes_one (BuildSipHasher.build_hasher sipNew) (BuildSipHasher.build_hasher sipNew)
          i i encode
          (BuildPairHasher.new (BuildSipHasher.from_keys keys1)
            (BuildSipHasher.from_keys keys2)) item) :=
  rfl

/-- Claim C6: the digest sequence is infinite — next always returns a
value, never the end-of-sequence result, so a bounded take of n elements
yields exactly n elements, for every generator state. -/
theorem C6_infinite (s : PairHasherIterator) (n : Nat) :
    (PairHasherIterator.next s).isSome = true ∧
    (PairHasherIterator.takeList n s).length = n :=
  ⟨rfl, takeList_length n s⟩

/-- Claim C7: write forwards the identical byte slice to both inner
accumulators, in the same order and with no transformation; it mutates
only the two inner accumulators and is a total function. -/
theorem C7_write {σ1 σ2 : Type} (i1 : HasherImpl σ1) (i2 : HasherImpl σ2)
    (p : PairHasher σ1 σ2) (bytes : List Nat) :
    (PairHasher.write i1 i2 p bytes).hasher1 = i1.write p.hasher1 bytes ∧
    (PairHasher.write i1 i2 p bytes).hasher2 = i2.write p.hasher2 bytes :=
  ⟨rfl, rfl⟩

/-- Claim C8: chunking independence — if both inner accumulators satisfy
byte-stream semantics (writing a concatenation equals writing the pieces in
order), then writing the concatenation of xs and ys in one call and
writing xs then ys in two calls leave the pair accumulator in equal
states, so finish and finish_iter agree on the two; the claimed instance
takes xs and ys to be the bytes of the two letters a and b. -/
theorem C8_chunking {σ1 σ2 : Type} (i1 : HasherImpl σ1) (i2 : HasherImpl σ2)
    (h1 : ∀ s xs ys, i1.write s (xs ++ ys) = i1.write (i1.write s xs) ys)
    (h2 : ∀ s xs ys, i2.write s (xs ++ ys) = i2.write (i2.write s xs) ys)
    (p : PairHasher σ1 σ2) (xs ys : List Nat) :
    PairHasher.write i1 i2 p (xs ++ ys) =
        PairHasher.write i1 i2 (PairHasher.write i1 i2 p xs) ys ∧
    (PairHasher.finish i1 i2 (PairHasher.write i1 i2 p (xs ++ ys))).1 =
        (PairHasher.finish i1 i2
          (PairHasher.write i1 i2 (PairHasher.write i1 i2 p xs) ys)).1 ∧
    PairHasher.finish_iter i1 i2 (PairHasher.write i1 i2 p (xs ++ ys)) =
        PairHasher.finish_iter i1 i2
          (PairHasher.write i1 i2 (PairHasher.write i1 i2 p xs) ys) := by
  have hst : PairHasher.write i1 i2 p (xs ++ ys) =
      PairHasher.write i1 i2 (PairHasher.write i1 i2 p xs) ys := by
    simp only [PairHasher.write, h1, h2]
  exact ⟨hst, by rw [hst], by rw [hst]⟩

/-- Claim C8, witness: the chunking theorem applied to a concrete inner
hasher (listHasher) on the byte 97 then the byte 98 — the utf8 bytes of
the letters a and b — with both byte-stream hypotheses discharged by list
append associativity. -/
theorem C8_chunking_witness :
    PairHasher.write listHasher listHasher (⟨[], []⟩ : PairHasher (List Nat) (List Nat))
        ([97] ++ [98]) =
      PairHasher.write listHasher listHasher
        (PairHasher.write listHasher listHasher ⟨[], []⟩ [97]) [98] ∧
    (PairHasher.finish listHasher listHasher
        (PairHasher.write listHasher listHasher ⟨[], []⟩ ([97] ++ [98]))).1 =
      (PairHasher.finish listHasher listHasher
        (PairHasher.write listHasher listHasher
          (PairHasher.write listHasher listHasher ⟨[], []⟩ [97]) [98])).1 ∧
    PairHasher.finish_iter listHasher listHasher
        (PairHasher.write listHasher listHasher ⟨[], []⟩ ([97] ++ [98])) =
      PairHasher.finish_iter listHasher listHasher
        (PairHasher.write listHasher listHasher
          (PairHasher.write listHasher listHasher ⟨[], []⟩ [97]) [98]) :=
  C8_chunking listHasher listHasher
    (fun s xs ys => by simp [listHasher, List.append_assoc])
    (fun s xs ys => by simp [listHasher, List.append_assoc])
    ⟨[], []⟩ [97] [98]

/-- Claim C9: the two parallel generator implementations are equivalent —
for every pair of seeds and every index, the raw u64 value emitted by
MultiHashIterator equals the underlying integer of the Hash64 value
emitted by PairHasherIterator at the same index. -/
theorem C9_equivalence (a0 b0 n : Nat) :
    (PairHasherIterator.takeList n (PairHasherIterator.new a0 b0)).map Hash64.to_u64 =
      MultiHashIterator.takeList n (MultiHashIterator.new a0 b0) :=
  takeList_map_eq_multi n a0 b0 0

/-- Claim C10: on every pair accumulator state, the first element of the
finish_iter sequence is the first inner digest taken alone, and the second
element is the wraparound sum of the two inner digests, exactly the value
finish returns on the same state. -/
theorem C10_first_two {σ1 σ2 : Type} (i1 : HasherImpl σ1) (i2 : HasherImpl σ2)
    (p : PairHasher σ1 σ2) :
    PairHasherIterator.takeList 2 (PairHasher.finish_iter i1 i2 p) =
      [Hash64.from_u64 (i1.finish p.hasher1),
        Hash64.from_u64 ((PairHasher.finish i1 i2 p).1)] :=
  rfl

end Multihash
